import Mathlib

/-!
Verification of the core engine of `cliquetis.py`: the argument expander
(`Action.expand` / `Action.run`), the tabular-data model (`TabularData`),
the hierarchical render model (`TreeViewer.display_data`) and the nullable
boolean variable (`NullBooleanVar` / `Cliquetis.get_value`).

Python strings are modelled as `List Char` (named `PyStr`) where character
level operations matter, and as Lean `String` elsewhere.  Python exceptions
are modelled with `Except ExcKind`.  Python dictionaries are modelled as
association lists in insertion order, matching the insertion-ordered
iteration of Python 3.7+ dicts.
-/

set_option maxHeartbeats 1000000

namespace Cliquetis

/-- Python string, modelled at the character level. -/
abbrev PyStr := List Char

/-- The kinds of Python exceptions the modelled code can raise. -/
inductive ExcKind where
  | indexError
  | keyError
  | typeError
  | valueError
deriving DecidableEq, Repr

/-- Scalar values that appear in the JSON configuration and in resolved
form-field bindings. -/
inductive PyVal where
  | null
  | str (s : String)
  | num (n : Int)
  | boolean (b : Bool)
deriving DecidableEq, Repr

/-- `Cliquetis.NUMBER`: type tag of a column containing numbers. -/
def NUMBER : Nat := 0

/-- `Cliquetis.STRING`: type tag of a column containing strings. -/
def STRING : Nat := 1

/-! ## Argument expander (`Action.expand`, `Action.run`) -/

/-- The placeholder token for a value name: a brace, the name, a closing
brace (Python `f"\x7b\x7b\x7bvalue_name\x7d\x7d\x7d"`). -/
def token (name : PyStr) : PyStr := '{' :: (name ++ ['}'])

/-- Python `str.replace(pat, rep)` for a non-empty pattern: replace every
non-overlapping occurrence of `pat`, scanning left to right.  (All call
sites use a placeholder token, which is never empty.) -/
def pyReplace (pat rep : PyStr) (s : PyStr) : PyStr :=
  match s with
  | [] => []
  | c :: rest =>
    if pat ≠ [] ∧ pat.isPrefixOf (c :: rest) then
      rep ++ pyReplace pat rep (rest.drop (pat.length - 1))
    else
      c :: pyReplace pat rep rest
termination_by s.length
decreasing_by
  · simp only [List.length_drop, List.length_cons]
    omega
  · simp

/-- First loop of `Action.expand`: scan the bindings in order and return the
raw bound value of the first name whose token equals the whole argument. -/
def findRaw (values : List (PyStr × Option PyStr)) (argument : PyStr) :
    Option (Option PyStr) :=
  match values with
  | [] => none
  | (n, v) :: rest =>
    if argument = token n then some v else findRaw rest argument

/-- Second loop of `Action.expand`: sequentially replace every occurrence of
each binding's token by its value, a `None` value standing in for the empty
string. -/
def substAll (values : List (PyStr × Option PyStr)) (argument : PyStr) : PyStr :=
  values.foldl (fun arg p => pyReplace (token p.1) (p.2.getD []) arg) argument

/-- `Action.expand`: if the whole argument equals some binding's token the
raw bound value is returned (possibly `none`, Python `None`); otherwise the
textual substitution result is returned. -/
def expand (values : List (PyStr × Option PyStr)) (argument : PyStr) :
    Option PyStr :=
  match findRaw values argument with
  | some v => v
  | none => some (substAll values argument)

/-- The argument-vector construction in `Action.run`: expand every template
and drop the entries whose expansion is `None`. -/
def runArgs (values : List (PyStr × Option PyStr)) (arguments : List PyStr) :
    List PyStr :=
  (arguments.map (expand values)).filterMap id

example : expand [(['x'], some ['a','b'])] (token ['x']) = some ['a','b'] := by
  decide

example : expand [(['x'], none)] (token ['x']) = none := by decide

example :
    expand [(['x'], none)] ('y' :: token ['x']) = some ['y'] := by
  simp [expand, findRaw, substAll, token, pyReplace]

example :
    runArgs [(['x'], none)] [['a'], token ['x'], ['b']] = [['a'], ['b']] := by
  simp [runArgs, expand, findRaw, substAll, token, pyReplace]

/-! ## Tabular data model (`TabularData`) -/

/-- A table row: an ordered list of string cells. -/
abbrev Row := List String

/-- `TabularData.data`: a flat list of rows, or after `group_by` an
insertion-ordered mapping (modelled as an association list) from group name
to the rows of that group. -/
inductive Rows where
  | flat (rows : List Row)
  | grouped (groups : List (String × List Row))
deriving DecidableEq, Repr

/-- The `TabularData` record: headings, rows, width, per-column inferred
types and per-column maximum cell lengths. -/
structure TabularData where
  headings : List String
  data : Rows
  width : Nat
  column_types : List Nat
  maximum_lengths : List Nat
deriving DecidableEq, Repr

/-- `TabularData.__init__`: the empty model. -/
def TabularData.init : TabularData := ⟨[], .flat [], 0, [], []⟩

/-- One item yielded by `insertable_items`: a group name or a row. -/
inductive Item where
  | name (group : String)
  | row (r : Row)
deriving DecidableEq, Repr

/-- The generator loop of `insertable_items` over grouped data: for each
group yield a root-parented group name, then the group's rows parented by
the group name. -/
def insertableGroups : List (String × List Row) → List (String × Item)
  | [] => []
  | (g, rows) :: rest =>
    ("", Item.name g) :: ((rows.map fun r => (g, Item.row r)) ++
      insertableGroups rest)

/-- `TabularData.insertable_items`, as the finite list of yielded pairs.
The Python generator is restartable because each call to the method builds
a fresh generator over immutable state; the model is a pure function. -/
def TabularData.insertable_items (t : TabularData) : List (String × Item) :=
  match t.data with
  | .grouped groups => insertableGroups groups
  | .flat rows => rows.map fun r => ("", Item.row r)

/-- Python `value.strip() == ''`: every character of the cell is
whitespace. -/
def isBlank (s : String) : Bool := s.toList.all Char.isWhitespace

/-- Inner loop of `_find_column_types` over `enumerate(row)`: `column` is
the index of `value` within the row; reading `types[column]` out of range
raises `IndexError`.  `parsesFloat` models the library primitive
`float(value)` succeeding. -/
def typeCells (parsesFloat : String → Bool) :
    List Nat → Nat → List String → Except ExcKind (List Nat)
  | types, _, [] => .ok types
  | types, column, value :: rest =>
    match types[column]? with
    | none => .error .indexError
    | some t =>
      typeCells parsesFloat
        (if t = STRING ∨ isBlank value then types
         else if parsesFloat value then types.set column NUMBER
         else types.set column STRING)
        (column + 1) rest

/-- Outer loop of `_find_column_types`: scan the rows, breaking early once
every column has been forced to `STRING`. -/
def findColumnTypesAux (parsesFloat : String → Bool) (width : Nat) :
    List Nat → List Row → Except ExcKind (List Nat)
  | types, [] => .ok types
  | types, row :: rest =>
    if types = List.replicate width STRING then .ok types
    else do
      let types' ← typeCells parsesFloat types 0 row
      findColumnTypesAux parsesFloat width types' rest

/-- `TabularData._find_column_types` on a model of the given width. -/
def findColumnTypes (parsesFloat : String → Bool) (width : Nat)
    (rows : List Row) : Except ExcKind (List Nat) :=
  findColumnTypesAux parsesFloat width (List.replicate width NUMBER) rows

/-- Inner loop of `_find_maximum_length` over `enumerate(row)`: reading
`maximum[column]` out of range raises `IndexError`. -/
def maxCells : List Nat → Nat → List String → Except ExcKind (List Nat)
  | maximum, _, [] => .ok maximum
  | maximum, column, value :: rest =>
    match maximum[column]? with
    | none => .error .indexError
    | some m =>
      maxCells
        (if value.length > m then maximum.set column value.length
         else maximum)
        (column + 1) rest

/-- Outer loop of `_find_maximum_length`. -/
def findMaximumLengthAux : List Nat → List Row → Except ExcKind (List Nat)
  | maximum, [] => .ok maximum
  | maximum, row :: rest => do
    let m ← maxCells maximum 0 row
    findMaximumLengthAux m rest

/-- `TabularData._find_maximum_length`: start from the heading lengths and
raise each column's maximum over the rows. -/
def findMaximumLength (headings : List String) (rows : List Row) :
    Except ExcKind (List Nat) :=
  findMaximumLengthAux (headings.map String.length) rows

/-- `TabularData.import_data` on a fresh model: fewer than 2 rows leaves
the model unchanged (`return` before any assignment); otherwise the first
row becomes the headings and types and maximum lengths are inferred. -/
def importData (parsesFloat : String → Bool) (data : List Row) :
    Except ExcKind TabularData :=
  match data with
  | [] => .ok TabularData.init
  | [_] => .ok TabularData.init
  | headings :: rows => do
    let width := headings.length
    let types ← findColumnTypes parsesFloat width rows
    let maxs ← findMaximumLength headings rows
    .ok ⟨headings, .flat rows, width, types, maxs⟩

/-- The dictionary update in `group_by`: append the row to the existing
group of that name, or append a fresh group at the end (Python dicts keep
insertion order). -/
def addToGroup : List (String × List Row) → String → Row →
    List (String × List Row)
  | [], name, row => [(name, [row])]
  | (k, rs) :: rest, name, row =>
    if k = name then (k, rs ++ [row]) :: rest
    else (k, rs) :: addToGroup rest name row

/-- The row loop of `group_by`: take each row's cell at `column` as its
group name and file the remaining cells under that group; an out-of-range
column raises `IndexError`. -/
def groupRows (column : Nat) :
    List Row → List (String × List Row) →
    Except ExcKind (List (String × List Row))
  | [], groups => .ok groups
  | row :: rest, groups =>
    match row[column]? with
    | none => .error .indexError
    | some name =>
      groupRows column rest (addToGroup groups name (row.eraseIdx column))

/-- Python `del xs[i]`: remove the element at `i`, raising `IndexError`
when out of range. -/
def pyDelete (xs : List α) (i : Nat) : Except ExcKind (List α) :=
  if i < xs.length then .ok (xs.eraseIdx i) else .error .indexError

/-- `TabularData.group_by`.  On already-grouped data the Python loop walks
the dictionary keys (strings) and `del row[column]` on a string raises
`TypeError`; the model raises it directly.  `width` is not updated by the
source. -/
def TabularData.group_by (t : TabularData) (column : Nat) :
    Except ExcKind TabularData :=
  match t.data with
  | .grouped _ => .error .typeError
  | .flat rows => do
    let groups ← groupRows column rows []
    let headings ← pyDelete t.headings column
    let maxs ← pyDelete t.maximum_lengths column
    let types ← pyDelete t.column_types column
    .ok ⟨headings, .grouped groups, t.width, types, maxs⟩

/-- Python `str.splitlines` restricted to the line terminators LF, CR and
CRLF; no trailing empty line is produced for a trailing terminator. -/
def pySplitlines : List Char → List (List Char)
  | [] => []
  | '\r' :: '\n' :: rest => [] :: pySplitlines rest
  | c :: rest =>
    if c = '\n' ∨ c = '\r' then [] :: pySplitlines rest
    else
      match pySplitlines rest with
      | [] => [[c]]
      | l :: ls => (c :: l) :: ls

/-- Python `str.split(sep)` for a non-empty separator (the only call sites
pass a configured separator or the tab default). -/
def pySplitSep (sep : List Char) (s : List Char) : List (List Char) :=
  match s with
  | [] => [[]]
  | c :: rest =>
    if sep ≠ [] ∧ sep.isPrefixOf (c :: rest) then
      [] :: pySplitSep sep (rest.drop (sep.length - 1))
    else
      match pySplitSep sep rest with
      | [] => [[c]]
      | part :: parts => (c :: part) :: parts
termination_by s.length
decreasing_by
  · simp only [List.length_drop, List.length_cons]
    omega
  · simp

/-- `TabularData.import_raw_data`: split the decoded text into lines and
cells, import, then optionally group.  The UTF-8 decode of the captured
bytes is abstracted: `text` is the decoded text. -/
def importRawData (parsesFloat : String → Bool) (text : String)
    (separator : String) (groupBy : Option Nat) :
    Except ExcKind TabularData := do
  let t ← importData parsesFloat
    ((pySplitlines text.toList).map fun line =>
      (pySplitSep separator.toList line).map fun cs => String.mk cs)
  match groupBy with
  | none => .ok t
  | some column => t.group_by column

/-! ## Hierarchical render model (`TreeViewer.display_data`) -/

/-- A decoded JSON value, the input of the hierarchical render model. -/
inductive JValue where
  | null
  | boolean (b : Bool)
  | num (n : Int)
  | str (s : String)
  | arr (elems : List JValue)
  | obj (fields : List (String × JValue))

/-- Python `data[key]` on a decoded JSON object (keys are unique in a
Python dict; the model takes the first match). -/
def jLookup : List (String × JValue) → String → Option JValue
  | [], _ => none
  | (k, v) :: rest, key => if k = key then some v else jLookup rest key

/-- `isinstance(data, dict) or isinstance(data, list)`. -/
def isContainer : JValue → Bool
  | .obj _ => true
  | .arr _ => true
  | _ => false

/-- Python `len` of a decoded JSON container. -/
def containerLen : JValue → Nat
  | .obj fields => fields.length
  | .arr elems => elems.length
  | _ => 0

/-- `TreeViewer.has_key_values`: the value is an object, a key-values list
is configured, and every configured name is a key of the object. -/
def hasKeyValues (kv : Option (List String)) (data : JValue) : Bool :=
  match data, kv with
  | .obj fields, some keys => keys.all fun k => (jLookup fields k).isSome
  | _, _ => false

/-- The label passed as `text=` to a tree insertion: absent, an object
key, an array index, or a JSON value taken from the data. -/
inductive TreeLabel where
  | noLabel
  | ofKey (key : String)
  | ofIdx (index : Nat)
  | ofVal (v : JValue)

/-- One display cell passed in `values=`: a JSON value from the data or a
synthetic text such as the item count. -/
inductive TreeCell where
  | cellVal (v : JValue)
  | cellText (s : String)

/-- One `tree.insert(parent, END, ...)` call: the parent node (none for
the root), the node id the call returns, the label, the display cells and
the open flag (tkinter defaults to closed when `open` is not passed). -/
structure InsertOp where
  parent : Option Nat
  id : Nat
  label : TreeLabel
  cells : List TreeCell
  opened : Bool

/-- The key-values shortcut at the top of `display_data`: when it applies,
the single node the object is rendered as.  The Python code raises
`IndexError` when the configured list is empty and the value is an object;
the shortcut therefore requires a non-empty list. -/
def kvShortcut (kv : Option (List String)) (data : JValue)
    (parent : Option Nat) (ctr : Nat) : Option InsertOp :=
  match kv, data with
  | some (fk :: fvs), .obj fields =>
    if hasKeyValues kv (JValue.obj fields) then
      some ⟨parent, ctr, TreeLabel.ofVal ((jLookup fields fk).getD .null),
        fvs.map fun fv => TreeCell.cellVal ((jLookup fields fv).getD .null),
        false⟩
    else none
  | _, _ => none

mutual

/-- `TreeViewer.display_data`: emit the insertion operations for a value
under `parent`, threading the next fresh node id `ctr`. -/
def displayData (collapsed : Bool) (kv : Option (List String)) :
    JValue → Option Nat → Nat → List InsertOp × Nat
  | data, parent, ctr =>
    match kvShortcut kv data parent ctr with
    | some op => ([op], ctr + 1)
    | none =>
      match data with
      | .obj fields => displayFields collapsed kv fields parent ctr
      | .arr elems => displayElems collapsed kv 0 elems parent ctr
      | scalar =>
        ([⟨parent, ctr, TreeLabel.noLabel, [TreeCell.cellVal scalar],
          false⟩], ctr + 1)

/-- The object loop of `display_data`: containers get a key-labelled node
with an item count and are descended into; scalars become leaves. -/
def displayFields (collapsed : Bool) (kv : Option (List String)) :
    List (String × JValue) → Option Nat → Nat → List InsertOp × Nat
  | [], _, ctr => ([], ctr)
  | (key, v) :: rest, parent, ctr =>
    if isContainer v then
      let node : InsertOp := ⟨parent, ctr, TreeLabel.ofKey key,
        [TreeCell.cellText (toString (containerLen v) ++ " item(s)")],
        !collapsed⟩
      let s1 := displayData collapsed kv v (some ctr) (ctr + 1)
      let s2 := displayFields collapsed kv rest parent s1.2
      (node :: s1.1 ++ s2.1, s2.2)
    else
      let node : InsertOp := ⟨parent, ctr, TreeLabel.ofKey key,
        [TreeCell.cellVal v], false⟩
      let s2 := displayFields collapsed kv rest parent (ctr + 1)
      (node :: s2.1, s2.2)

/-- The array loop of `display_data`: an element meeting the key-values
shortcut is rendered directly under the current parent; other containers
get an index-labelled node and are descended into; scalars become
index-labelled leaves. -/
def displayElems (collapsed : Bool) (kv : Option (List String)) :
    Nat → List JValue → Option Nat → Nat → List InsertOp × Nat
  | _, [], _, ctr => ([], ctr)
  | index, row :: rest, parent, ctr =>
    if hasKeyValues kv row then
      let s1 := displayData collapsed kv row parent ctr
      let s2 := displayElems collapsed kv (index + 1) rest parent s1.2
      (s1.1 ++ s2.1, s2.2)
    else if isContainer row then
      let node : InsertOp := ⟨parent, ctr, TreeLabel.ofIdx index, [],
        !collapsed⟩
      let s1 := displayData collapsed kv row (some ctr) (ctr + 1)
      let s2 := displayElems collapsed kv (index + 1) rest parent s1.2
      (node :: s1.1 ++ s2.1, s2.2)
    else
      let node : InsertOp := ⟨parent, ctr, TreeLabel.ofIdx index,
        [TreeCell.cellVal row], false⟩
      let s2 := displayElems collapsed kv (index + 1) rest parent (ctr + 1)
      (node :: s2.1, s2.2)

end

/-! ## Action runner dispatch (`Action.run`) -/

/-- What `Action.run` returns: a tabular model, a decoded JSON value, or
the raw captured output. -/
inductive RunResult where
  | table (t : TabularData)
  | json (v : JValue)
  | raw (text : String)

/-- The result dispatch of `Action.run`, after the child process has been
captured: `stdout` is the captured output (bytes modelled as decoded
text), `jsonLoads` models the library primitive `loads`.  Reading
`configuration['viewer']` on a configuration without that key raises
`KeyError`.  A negative `group-by` index and non-string separators are
modelled as `TypeError`. -/
def runResult (parsesFloat : String → Bool)
    (jsonLoads : String → Except ExcKind JValue)
    (configuration : List (String × PyVal)) (stdout : String) :
    Except ExcKind RunResult :=
  match configuration.lookup "viewer" with
  | none => .error .keyError
  | some viewer =>
    if viewer = .str "table" then do
      let separator ←
        match configuration.lookup "separator" with
        | none => Except.ok "\t"
        | some (.str s) => Except.ok s
        | some _ => Except.error .typeError
      let groupBy ←
        match configuration.lookup "group-by" with
        | none => Except.ok none
        | some .null => Except.ok none
        | some (.num n) =>
          if n < 0 then Except.error .typeError else Except.ok (some n.toNat)
        | some _ => Except.error .typeError
      let t ← importRawData parsesFloat stdout separator groupBy
      .ok (.table t)
    else if viewer = .str "json" then do
      let v ← jsonLoads stdout
      .ok (.json v)
    else .ok (.raw stdout)

/-! ## Nullable boolean (`NullBooleanVar`, `Cliquetis.get_value`) -/

/-- `NullBooleanVar`: a two-state tkinter `BooleanVar` together with the
configured values reported for the true and the false state. -/
structure NullBooleanVar where
  onvalue : PyVal
  offvalue : PyVal
  value : Bool
deriving DecidableEq, Repr

/-- `NullBooleanVar.get_null`: report the configured value of the current
boolean state. -/
def NullBooleanVar.get_null (v : NullBooleanVar) : PyVal :=
  if v.value then v.onvalue else v.offvalue

/-- A live form widget as read at submission time: the nullable boolean,
or any of the text-carrying widgets (`Entry`, `StringVar`, `Combobox`),
whose `get` returns the current text. -/
inductive Widget where
  | nullBoolean (v : NullBooleanVar)
  | entry (text : String)
deriving DecidableEq, Repr

/-- `Cliquetis.get_value`: try `get_null` — only `NullBooleanVar` has it —
and fall back to `get`, which yields the widget text. -/
def get_value : Widget → PyVal
  | .nullBoolean v => v.get_null
  | .entry text => .str text

/-! ## Claim theorems -/

/-- C7: `import_data` on fewer than 2 rows raises no exception and leaves
the fresh model empty and unchanged: empty headings, zero width, no rows,
no column types, no maximum lengths. -/
theorem C7_import_fewer_than_two_rows (parsesFloat : String → Bool)
    (data : List Row) (h : data.length < 2) :
    importData parsesFloat data = Except.ok TabularData.init ∧
    TabularData.init.headings = [] ∧
    TabularData.init.width = 0 ∧
    TabularData.init.data = Rows.flat [] ∧
    TabularData.init.column_types = [] ∧
    TabularData.init.maximum_lengths = [] := by
  refine ⟨?_, rfl, rfl, rfl, rfl, rfl⟩
  match data with
  | [] => rfl
  | [_] => rfl
  | a :: b :: rest =>
    simp only [List.length_cons] at h
    omega

/-- Witness for C7 at a concrete one-row input. -/
theorem C7_witness :
    importData (fun _ => true) [["a", "b"]] = Except.ok TabularData.init :=
  (C7_import_fewer_than_two_rows (fun _ => true) [["a", "b"]] (by decide)).1

/-- C6: `insertable_items` is a finite, restartable (pure, rebuilt on each
call) sequence of parent-key/row pairs: on grouped data it yields, for
each group in stored first-seen order, one root-parented group-name pair
immediately followed by one pair per row of that group parented by the
group name, with no interleaving across groups; on flat data it yields one
root-parented pair per row in original order. -/
theorem C6_insertable_items (h : List String) (g : List (String × List Row))
    (rows : List Row) (w : Nat) (ct ml : List Nat) :
    (TabularData.mk h (Rows.grouped g) w ct ml).insertable_items =
      g.flatMap (fun p => ("", Item.name p.1) ::
        p.2.map fun r => (p.1, Item.row r)) ∧
    (TabularData.mk h (Rows.flat rows) w ct ml).insertable_items =
      rows.map fun r => ("", Item.row r) := by
  constructor
  · show insertableGroups g = _
    induction g with
    | nil => rfl
    | cons p rest ih => simp [insertableGroups, ih]
  · rfl

/-- C9 counterexample: with configured true-value "yes" and false-value
"no", the unset state resolves to the configured false-value itself, not
to a marker distinct from both configured values: there is no third
mutually distinguishable outcome. -/
theorem C9_counterexample :
    get_value (Widget.nullBoolean ⟨PyVal.str "yes", PyVal.str "no", false⟩) =
      PyVal.str "no" ∧
    ¬(get_value (Widget.nullBoolean
        ⟨PyVal.str "yes", PyVal.str "no", false⟩) ≠ PyVal.str "yes" ∧
      get_value (Widget.nullBoolean
        ⟨PyVal.str "yes", PyVal.str "no", false⟩) ≠ PyVal.str "no") := by
  decide

/-- C9 (amended): a tri-state boolean field resolves at submission time to
one of its two configured outcomes — the true-value when set, the
false-value when unset; a null/absent marker is obtained only by
configuring the false-value as null, not as a distinct third outcome;
ordinary string fields never resolve to the absent marker. -/
theorem C9_two_configured_outcomes (onv offv : PyVal) (st : Bool)
    (s : String) :
    get_value (Widget.nullBoolean ⟨onv, offv, st⟩) =
      (if st then onv else offv) ∧
    get_value (Widget.nullBoolean ⟨onv, PyVal.null, false⟩) = PyVal.null ∧
    get_value (Widget.entry s) ≠ PyVal.null := by
  refine ⟨rfl, rfl, ?_⟩
  simp [get_value]

/-- C2 counterexample: with no viewer key configured at all, the run
dispatch raises `KeyError` instead of returning the raw captured
output. -/
theorem C2_counterexample :
    runResult (fun _ => false) (fun _ => Except.error ExcKind.valueError)
      [] "output" = Except.error ExcKind.keyError := rfl

/-- C2 (amended): for every Action whose output configuration has a
viewer key with a value other than table and json, `run` returns the raw
captured output untouched with no exception raised by the dispatch; when
the viewer key is absent the dispatch instead raises `KeyError`. -/
theorem C2_other_viewer_returns_raw
    (parsesFloat : String → Bool) (jsonLoads : String → Except ExcKind JValue)
    (configuration : List (String × PyVal)) (stdout : String) (v : PyVal)
    (hv : configuration.lookup "viewer" = some v)
    (ht : v ≠ PyVal.str "table") (hj : v ≠ PyVal.str "json") :
    runResult parsesFloat jsonLoads configuration stdout =
      Except.ok (RunResult.raw stdout) := by
  simp [runResult, hv, ht, hj]

/-- Witness for C2 at a concrete multiline configuration. -/
theorem C2_witness :
    runResult (fun _ => false) (fun _ => Except.error ExcKind.valueError)
      [("viewer", PyVal.str "multiline")] "output" =
      Except.ok (RunResult.raw "output") :=
  C2_other_viewer_returns_raw _ _ _ _ (PyVal.str "multiline") rfl
    (by decide) (by decide)

/-- Placeholder tokens of distinct names are distinct. -/
theorem token_injective {a b : PyStr} (h : token a = token b) : a = b := by
  simp only [token, List.cons.injEq, true_and] at h
  exact List.append_cancel_right h

/-- `findRaw` returns the value bound to `x` when the whole argument is
the token of `x` and the bound names are unique. -/
theorem findRaw_token (values : List (PyStr × Option PyStr)) (x : PyStr)
    (v : Option PyStr) (hnd : (values.map Prod.fst).Nodup)
    (hmem : (x, v) ∈ values) :
    findRaw values (token x) = some v := by
  induction values with
  | nil => cases hmem
  | cons p rest ih =>
    obtain ⟨n, w⟩ := p
    simp only [List.map_cons, List.nodup_cons] at hnd
    rcases List.mem_cons.mp hmem with heq | hmem2
    · cases heq
      simp [findRaw]
    · have hxn : x ≠ n := by
        intro hcontra
        subst hcontra
        exact hnd.1 (List.mem_map_of_mem Prod.fst hmem2)
      simp only [findRaw]
      rw [if_neg fun hteq => hxn (token_injective hteq)]
      exact ih hnd.2 hmem2

/-- C1: a template that is exactly the placeholder token of a bound name
expands to the raw bound value itself (`none` for a null binding, the
bound text otherwise, never a stringification); in the argument vector of
`run`, an entry expanding to `none` is omitted while every other entry is
kept in template order. -/
theorem C1_raw_token_expansion (values : List (PyStr × Option PyStr))
    (x : PyStr) (v : Option PyStr) (t : PyStr) (args1 args2 : List PyStr)
    (hnd : (values.map Prod.fst).Nodup) (hmem : (x, v) ∈ values)
    (ht : t = token x) :
    expand values t = v ∧
    (v = none → runArgs values (args1 ++ t :: args2) =
      runArgs values args1 ++ runArgs values args2) ∧
    (∀ s, v = some s → runArgs values (args1 ++ t :: args2) =
      runArgs values args1 ++ s :: runArgs values args2) := by
  subst ht
  have hexp : expand values (token x) = v := by
    simp [expand, findRaw_token values x v hnd hmem]
  refine ⟨hexp, ?_, ?_⟩
  · intro hv
    simp [runArgs, List.filterMap_append, hexp, hv]
  · intro s hv
    simp [runArgs, List.filterMap_append, hexp, hv]

/-- Witness for C1 at a concrete null binding. -/
theorem C1_witness :
    ((([(['x'], (none : Option PyStr))].map Prod.fst).Nodup ∧
      (['x'], (none : Option PyStr)) ∈ [(['x'], (none : Option PyStr))]) ∧
     runArgs [(['x'], none)] ([['a']] ++ token ['x'] :: [['b']]) =
       runArgs [(['x'], none)] [['a']] ++ runArgs [(['x'], none)] [['b']]) :=
  ⟨⟨by decide, by decide⟩,
    (C1_raw_token_expansion [(['x'], none)] ['x'] none (token ['x'])
      [['a']] [['b']] (by decide) (by decide) rfl).2.1 rfl⟩

/-- A pattern occurs somewhere in a string: it is a prefix at some
position. -/
def occurs (pat : PyStr) : PyStr → Bool
  | [] => pat.isPrefixOf []
  | c :: rest => pat.isPrefixOf (c :: rest) || occurs pat rest

/-- A list is a prefix of itself followed by anything. -/
theorem isPrefixOf_self_append (l b : PyStr) : l.isPrefixOf (l ++ b) = true := by
  induction l with
  | nil => cases b <;> rfl
  | cons c rest ih => simp [List.isPrefixOf, ih]

/-- A prefix of an appended list no longer than the left part is a prefix
of the left part. -/
theorem isPrefixOf_append_left (pat s t : PyStr)
    (h : pat.isPrefixOf (s ++ t) = true) (hlen : pat.length ≤ s.length) :
    pat.isPrefixOf s = true := by
  induction pat generalizing s with
  | nil => cases s <;> rfl
  | cons p pt ih =>
    cases s with
    | nil => simp at hlen
    | cons x s2 =>
      simp only [List.cons_append, List.isPrefixOf, Bool.and_eq_true] at h ⊢
      refine ⟨h.1, ih s2 h.2 ?_⟩
      simp only [List.length_cons] at hlen
      omega

/-- A pattern that is a prefix occurs. -/
theorem occurs_of_isPrefixOf {pat s : PyStr}
    (h : pat.isPrefixOf s = true) : occurs pat s = true := by
  cases s <;> simp [occurs, h]

/-- `str.replace` leaves a string without an occurrence of the pattern
unchanged. -/
theorem pyReplace_no_occur (pat rep s : PyStr)
    (h : occurs pat s = false) : pyReplace pat rep s = s := by
  induction s with
  | nil => simp [pyReplace]
  | cons c rest ih =>
    simp only [occurs, Bool.or_eq_false_iff] at h
    rw [pyReplace, if_neg fun hc => by simp [h.1] at hc]
    rw [ih h.2]

/-- `str.replace` fires on a leading occurrence of the pattern and
continues after it. -/
theorem pyReplace_head (pat rep b : PyStr) (hne : pat ≠ []) :
    pyReplace pat rep (pat ++ b) = rep ++ pyReplace pat rep b := by
  match pat, hne with
  | p :: pt, _ =>
    rw [List.cons_append, pyReplace,
      if_pos ⟨by simp, by rw [← List.cons_append]
                          exact isPrefixOf_self_append (p :: pt) b⟩]
    simp [List.drop_left]

/-- `str.replace` replaces the occurrence after a clean left context and
keeps the context itself. -/
theorem pyReplace_split (pat rep a b : PyStr) (hne : pat ≠ [])
    (hno : occurs pat (a ++ pat.dropLast) = false) :
    pyReplace pat rep (a ++ pat ++ b) = a ++ rep ++ pyReplace pat rep b := by
  induction a with
  | nil => simpa using pyReplace_head pat rep b hne
  | cons c a2 ih =>
    simp only [List.cons_append, occurs, Bool.or_eq_false_iff] at hno
    have hnpre : ¬(pat.isPrefixOf (c :: (a2 ++ pat ++ b)) = true) := by
      intro hpre
      have hdecomp : pat.dropLast ++ [pat.getLast hne] = pat :=
        List.dropLast_append_getLast hne
      have hsplit : c :: (a2 ++ pat ++ b) =
          (c :: (a2 ++ pat.dropLast)) ++ (pat.getLast hne :: b) := by
        conv_lhs => rw [← hdecomp]
        simp
      rw [hsplit] at hpre
      have hlen : pat.length ≤ (c :: (a2 ++ pat.dropLast)).length := by
        simp only [List.length_cons, List.length_append,
          List.length_dropLast]
        have := List.length_pos.mpr hne
        omega
      have hocc : occurs pat (c :: (a2 ++ pat.dropLast)) = false := by
        simp only [occurs, Bool.or_eq_false_iff]
        exact ⟨hno.1, hno.2⟩
      exact absurd (occurs_of_isPrefixOf
        (isPrefixOf_append_left _ _ _ hpre hlen)) (by simp [hocc])
    rw [List.cons_append, List.cons_append, pyReplace,
      if_neg fun hc => hnpre hc.2]
    rw [show a2 ++ pat ++ b = a2 ++ (pat ++ b) from by simp] at ih ⊢
    rw [ih hno.2]
    simp

/-- `findRaw` finds nothing when the argument is no binding's token. -/
theorem findRaw_eq_none (values : List (PyStr × Option PyStr)) (t : PyStr)
    (hnot : ∀ p ∈ values, t ≠ token p.1) : findRaw values t = none := by
  induction values with
  | nil => rfl
  | cons p rest ih =>
    obtain ⟨n, w⟩ := p
    simp only [findRaw]
    rw [if_neg (hnot (n, w) (List.mem_cons_self _ _))]
    exact ih fun q hq => hnot q (List.mem_cons_of_mem _ hq)

/-- C8: a template that is not exactly a placeholder token goes through
textual interpolation: the result is the sequential replacement of every
binding's token, a null binding substituting as the empty string (never a
literal text); and the underlying replacement really rewrites every
occurrence: it is the identity without an occurrence, and it maps a clean
context, an occurrence and a tail to the context, the replacement and the
rewritten tail. -/
theorem C8_interpolated_expansion (values : List (PyStr × Option PyStr))
    (t : PyStr) (hnot : ∀ p ∈ values, t ≠ token p.1) :
    expand values t = some (substAll values t) ∧
    (∀ (x : PyStr) (v : Option PyStr) (arg : PyStr),
      substAll [(x, v)] arg = pyReplace (token x) (v.getD []) arg) ∧
    (∀ (x : PyStr) (arg : PyStr),
      substAll [(x, none)] arg = pyReplace (token x) [] arg) ∧
    (∀ (pat rep s : PyStr), occurs pat s = false →
      pyReplace pat rep s = s) ∧
    (∀ (pat rep a b : PyStr), pat ≠ [] →
      occurs pat (a ++ pat.dropLast) = false →
      pyReplace pat rep (a ++ pat ++ b) = a ++ rep ++ pyReplace pat rep b) := by
  refine ⟨?_, fun x v arg => rfl, fun x arg => rfl,
    pyReplace_no_occur, fun pat rep a b hne hno =>
      pyReplace_split pat rep a b hne hno⟩
  simp [expand, findRaw_eq_none values t hnot]

/-- Witness for C8 at a concrete non-token template. -/
theorem C8_witness :
    (∀ p ∈ [(['x'], (some ['v'] : Option PyStr))], ['y', 'z'] ≠ token p.1) ∧
    expand [(['x'], some ['v'])] ['y', 'z'] =
      some (substAll [(['x'], some ['v'])] ['y', 'z']) :=
  ⟨by decide,
    (C8_interpolated_expansion [(['x'], some ['v'])] ['y', 'z']
      (by decide)).1⟩

/-- C4: during hierarchical rendering with a configured (non-empty)
key-values list, an object carrying all of the configured field names —
met directly or as an array element — is rendered as a single node under
the current parent whose label is the value at the first configured name
and whose row values are the values at the remaining names, with no
descent into the object and, for an array element, no intermediate
index-labelled node. -/
theorem C4_key_values_shortcut (collapsed : Bool) (fk : String)
    (fvs : List String) (fields : List (String × JValue))
    (parent : Option Nat) (ctr idx : Nat) (rest : List JValue)
    (hkv : hasKeyValues (some (fk :: fvs)) (JValue.obj fields) = true) :
    displayData collapsed (some (fk :: fvs)) (JValue.obj fields) parent ctr =
      ([⟨parent, ctr,
        TreeLabel.ofVal ((jLookup fields fk).getD JValue.null),
        fvs.map fun fv =>
          TreeCell.cellVal ((jLookup fields fv).getD JValue.null),
        false⟩], ctr + 1) ∧
    displayElems collapsed (some (fk :: fvs)) idx
        (JValue.obj fields :: rest) parent ctr =
      (⟨parent, ctr,
        TreeLabel.ofVal ((jLookup fields fk).getD JValue.null),
        fvs.map fun fv =>
          TreeCell.cellVal ((jLookup fields fv).getD JValue.null),
        false⟩ ::
        (displayElems collapsed (some (fk :: fvs)) (idx + 1) rest parent
          (ctr + 1)).1,
       (displayElems collapsed (some (fk :: fvs)) (idx + 1) rest parent
          (ctr + 1)).2) := by
  have hshort : kvShortcut (some (fk :: fvs)) (JValue.obj fields) parent ctr =
      some ⟨parent, ctr,
        TreeLabel.ofVal ((jLookup fields fk).getD JValue.null),
        fvs.map fun fv =>
          TreeCell.cellVal ((jLookup fields fv).getD JValue.null),
        false⟩ := by
    simp [kvShortcut, hkv]
  have h1 : displayData collapsed (some (fk :: fvs)) (JValue.obj fields)
      parent ctr =
      ([⟨parent, ctr,
        TreeLabel.ofVal ((jLookup fields fk).getD JValue.null),
        fvs.map fun fv =>
          TreeCell.cellVal ((jLookup fields fv).getD JValue.null),
        false⟩], ctr + 1) := by
    rw [displayData, hshort]
  refine ⟨h1, ?_⟩
  rw [displayElems, if_pos hkv, h1]
  simp

/-- Witness for C4 at the specification's two-record example. -/
theorem C4_witness :
    hasKeyValues (some ("id" :: ["n"]))
      (JValue.obj [("id", JValue.str "x"), ("n", JValue.num 1)]) = true ∧
    displayElems false (some ("id" :: ["n"])) 0
        (JValue.obj [("id", JValue.str "x"), ("n", JValue.num 1)] ::
          [JValue.obj [("id", JValue.str "y"), ("n", JValue.num 2)]])
        none 0 =
      (⟨none, 0,
        TreeLabel.ofVal ((jLookup [("id", JValue.str "x"),
          ("n", JValue.num 1)] "id").getD JValue.null),
        ["n"].map fun fv =>
          TreeCell.cellVal ((jLookup [("id", JValue.str "x"),
            ("n", JValue.num 1)] fv).getD JValue.null),
        false⟩ ::
        (displayElems false (some ("id" :: ["n"])) 1
          [JValue.obj [("id", JValue.str "y"), ("n", JValue.num 2)]]
          none 1).1,
       (displayElems false (some ("id" :: ["n"])) 1
          [JValue.obj [("id", JValue.str "y"), ("n", JValue.num 2)]]
          none 1).2) :=
  ⟨by decide,
    (C4_key_values_shortcut false "id" ["n"]
      [("id", JValue.str "x"), ("n", JValue.num 1)] none 0 0
      [JValue.obj [("id", JValue.str "y"), ("n", JValue.num 2)]]
      (by decide)).2⟩

/-- A column is forced to STRING by some row holding a non-blank cell at
that column that fails the float parse (the claim's characterization). -/
def stringForced (parsesFloat : String → Bool) (rows : List Row)
    (c : Nat) : Bool :=
  rows.any fun row =>
    match row[c]? with
    | some cell => !isBlank cell && !parsesFloat cell
    | none => false

/-- The claim's column-type table: STRING exactly on forced columns,
NUMBER elsewhere. -/
def columnTypesSpec (parsesFloat : String → Bool) (width : Nat)
    (rows : List Row) : List Nat :=
  (List.range width).map fun c =>
    if stringForced parsesFloat rows c then STRING else NUMBER

/-- The type of a column after its previous type sees one more cell. -/
def newType (parsesFloat : String → Bool) (old : Nat) (cell : String) : Nat :=
  if old = STRING ∨ isBlank cell then old
  else if parsesFloat cell then NUMBER else STRING

theorem columnTypesSpec_length (parsesFloat : String → Bool) (width : Nat)
    (rows : List Row) : (columnTypesSpec parsesFloat width rows).length = width := by
  simp [columnTypesSpec]

theorem columnTypesSpec_getElem? (parsesFloat : String → Bool)
    (width : Nat) (rows : List Row) (c : Nat) :
    (columnTypesSpec parsesFloat width rows)[c]? =
      if c < width then
        some (if stringForced parsesFloat rows c then STRING else NUMBER)
      else none := by
  by_cases hc : c < width
  · simp [columnTypesSpec, List.getElem?_map, List.getElem?_range hc, hc]
  · simp [columnTypesSpec, hc, List.getElem?_eq_none, Nat.le_of_not_lt]

/-- `typeCells` succeeds on an in-range row segment and updates exactly
the columns the row's cells fall on, each through `newType`. -/
theorem typeCells_spec (parsesFloat : String → Bool) (row : List String) :
    ∀ (types : List Nat) (column : Nat),
    column + row.length ≤ types.length →
    ∃ t2, typeCells parsesFloat types column row = .ok t2 ∧
      t2.length = types.length ∧
      ∀ c, t2[c]? =
        if column ≤ c ∧ c - column < row.length then
          (types[c]?).map fun old =>
            newType parsesFloat old (row.getD (c - column) "")
        else types[c]? := by
  induction row with
  | nil =>
    intro types column _
    refine ⟨types, rfl, rfl, fun c => ?_⟩
    simp
  | cons cell rest ih =>
    intro types column hlen
    simp only [List.length_cons] at hlen
    have hcol : column < types.length := by omega
    have ht : types[column]? = some types[column] :=
      List.getElem?_eq_getElem hcol
    set t := types[column] with htdef
    set types1 : List Nat :=
      if t = STRING ∨ isBlank cell then types
      else if parsesFloat cell then types.set column NUMBER
      else types.set column STRING with htypes1
    have hlen1 : types1.length = types.length := by
      rw [htypes1]
      split
      · rfl
      · split <;> simp [List.length_set]
    have hstep : typeCells parsesFloat types column (cell :: rest) =
        typeCells parsesFloat types1 (column + 1) rest := by
      rw [typeCells, ht]
    have hsame : ∀ c, c ≠ column → types1[c]? = types[c]? := by
      intro c hc
      rw [htypes1]
      split
      · rfl
      · split <;> rw [List.getElem?_set_ne (fun h => hc h.symm)]
    have hat : types1[column]? = some (newType parsesFloat t cell) := by
      rw [htypes1, newType]
      split
      · rw [ht]
      · split <;> simp [List.getElem?_set_eq_of_lt _ hcol]
    obtain ⟨t2, heq, hl2, hpt⟩ := ih types1 (column + 1) (by omega)
    refine ⟨t2, by rw [hstep, heq], by rw [hl2, hlen1], fun c => ?_⟩
    simp only [List.length_cons]
    rcases Nat.lt_trichotomy c column with hlt | hceq | hgt
    · have h1 := hpt c
      rw [if_neg (by omega)] at h1
      rw [h1, hsame c (by omega), if_neg (by omega)]
    · subst hceq
      have h1 := hpt c
      rw [if_neg (by omega)] at h1
      rw [h1, hat, if_pos ⟨Nat.le_refl c, by omega⟩]
      simp [ht]
    · have h1 := hpt c
      by_cases hin : c - column < rest.length + 1
      · have hin2 : c - (column + 1) < rest.length := by omega
        rw [if_pos ⟨by omega, hin2⟩] at h1
        rw [h1, hsame c (by omega), if_pos ⟨by omega, hin⟩]
        have hidx : c - column = (c - (column + 1)) + 1 := by omega
        rw [hidx, List.getD_cons_succ]
      · rw [if_neg (by omega)] at h1
        rw [h1, hsame c (by omega), if_neg (by omega)]

/-- Processing one in-range row advances the spec table by that row. -/
theorem typeCells_advance (parsesFloat : String → Bool) (width : Nat)
    (p : List Row) (row : Row) (hrow : row.length ≤ width) :
    typeCells parsesFloat (columnTypesSpec parsesFloat width p) 0 row =
      .ok (columnTypesSpec parsesFloat width (p ++ [row])) := by
  obtain ⟨t2, heq, hl2, hpt⟩ := typeCells_spec parsesFloat row
    (columnTypesSpec parsesFloat width p) 0
    (by rw [columnTypesSpec_length]; omega)
  rw [heq]
  congr 1
  apply List.ext_getElem?
  intro c
  have h1 := hpt c
  simp only [Nat.zero_le, Nat.sub_zero, true_and] at h1
  rw [columnTypesSpec_getElem?] at h1
  rw [h1, columnTypesSpec_getElem?]
  have hany : stringForced parsesFloat (p ++ [row]) c =
      (stringForced parsesFloat p c ||
        match row[c]? with
        | some cell => !isBlank cell && !parsesFloat cell
        | none => false) := by
    simp [stringForced, List.any_append]
  by_cases hcr : c < row.length
  · have hcw : c < width := by omega
    have hcell : row[c]? = some row[c] := List.getElem?_eq_getElem hcr
    have hgetD : row.getD c "" = row[c] := by
      rw [List.getD_eq_getElem?_getD, hcell]
      rfl
    rw [if_pos hcr, if_pos hcw, if_pos hcw, Option.map_some']
    congr 1
    rw [hany, hcell, hgetD]
    simp only [newType]
    by_cases hsf : stringForced parsesFloat p c
    · simp [hsf, STRING]
    · by_cases hbl : isBlank row[c]
      · simp [hsf, hbl, NUMBER, STRING]
      · by_cases hpf : parsesFloat row[c]
        · simp [hsf, hbl, hpf, NUMBER, STRING]
        · simp [hsf, hbl, hpf, NUMBER, STRING]
  · have hrow_none : row[c]? = none := List.getElem?_eq_none (by omega)
    rw [if_neg hcr]
    by_cases hcw : c < width
    · rw [if_pos hcw, if_pos hcw]
      rw [hany, hrow_none]
      simp
    · rw [if_neg hcw, if_neg hcw]

/-- On an all-STRING spec table every column is forced. -/
theorem columnTypesSpec_all_string (parsesFloat : String → Bool)
    (width : Nat) (p : List Row)
    (h : columnTypesSpec parsesFloat width p = List.replicate width STRING) :
    ∀ c, c < width → stringForced parsesFloat p c = true := by
  intro c hc
  have h1 := congrArg (fun l => l[c]?) h
  simp only at h1
  rw [columnTypesSpec_getElem?, if_pos hc, List.getElem?_replicate,
    if_pos hc] at h1
  by_cases hsf : stringForced parsesFloat p c
  · exact hsf
  · rw [if_neg hsf] at h1
    simp [NUMBER, STRING] at h1

/-- A column forced in a prefix stays forced in any extension. -/
theorem stringForced_append (parsesFloat : String → Bool) (p l : List Row)
    (c : Nat) (h : stringForced parsesFloat p c = true) :
    stringForced parsesFloat (p ++ l) c = true := by
  simp only [stringForced] at h ⊢
  rw [List.any_append, h, Bool.true_or]

/-- The initial all-NUMBER table is the spec table of no rows. -/
theorem replicate_number_eq_spec_nil (parsesFloat : String → Bool)
    (width : Nat) :
    List.replicate width NUMBER = columnTypesSpec parsesFloat width [] := by
  apply List.ext_getElem?
  intro c
  rw [List.getElem?_replicate, columnTypesSpec_getElem?]
  by_cases hc : c < width
  · rw [if_pos hc, if_pos hc]
    simp [stringForced]
  · rw [if_neg hc, if_neg hc]

/-- The row loop of `_find_column_types` computes the spec table, early
break included. -/
theorem findColumnTypesAux_spec (parsesFloat : String → Bool) (width : Nat) :
    ∀ (rows p : List Row), (∀ row ∈ rows, row.length ≤ width) →
    findColumnTypesAux parsesFloat width
        (columnTypesSpec parsesFloat width p) rows =
      .ok (columnTypesSpec parsesFloat width (p ++ rows)) := by
  intro rows
  induction rows with
  | nil =>
    intro p _
    simp [findColumnTypesAux]
  | cons row rest ih =>
    intro p hlen
    rw [findColumnTypesAux]
    by_cases hb : columnTypesSpec parsesFloat width p =
        List.replicate width STRING
    · rw [if_pos hb]
      congr 1
      apply List.ext_getElem?
      intro c
      rw [columnTypesSpec_getElem?, columnTypesSpec_getElem?]
      by_cases hc : c < width
      · rw [if_pos hc, if_pos hc,
          columnTypesSpec_all_string parsesFloat width p hb c hc,
          stringForced_append parsesFloat p (row :: rest) c
            (columnTypesSpec_all_string parsesFloat width p hb c hc)]
      · rw [if_neg hc, if_neg hc]
    · rw [if_neg hb]
      rw [typeCells_advance parsesFloat width p row
        (hlen row (List.mem_cons_self _ _))]
      show findColumnTypesAux parsesFloat width
        (columnTypesSpec parsesFloat width (p ++ [row])) rest = _
      rw [ih (p ++ [row]) fun r hr => hlen r (List.mem_cons_of_mem _ hr)]
      simp

/-- C5: a column's inferred type is STRING exactly when some row has a
non-blank cell at that column failing the float parse; a column whose
cells are all blank or all parse is NUMBER; blank cells never force a
type. -/
theorem C5_column_type_inference (parsesFloat : String → Bool)
    (width : Nat) (rows : List Row)
    (h : ∀ row ∈ rows, row.length ≤ width) :
    findColumnTypes parsesFloat width rows =
      .ok (columnTypesSpec parsesFloat width rows) ∧
    (∀ c, stringForced parsesFloat rows c = true ↔
      ∃ row ∈ rows, ∃ cell, row[c]? = some cell ∧
        ¬isBlank cell = true ∧ ¬parsesFloat cell = true) ∧
    (∀ c, c < width → (columnTypesSpec parsesFloat width rows)[c]? =
      some (if stringForced parsesFloat rows c then STRING else NUMBER)) := by
  refine ⟨?_, ?_, ?_⟩
  · rw [findColumnTypes, replicate_number_eq_spec_nil]
    have h2 := findColumnTypesAux_spec parsesFloat width rows [] h
    simpa using h2
  · intro c
    simp only [stringForced, List.any_eq_true]
    constructor
    · rintro ⟨row, hrow, hmatch⟩
      refine ⟨row, hrow, ?_⟩
      cases hrc : row[c]? with
      | none =>
        rw [hrc] at hmatch
        cases hmatch
      | some cell =>
        rw [hrc] at hmatch
        simp only [Bool.and_eq_true, Bool.not_eq_true'] at hmatch
        exact ⟨cell, rfl, by simp [hmatch.1], by simp [hmatch.2]⟩
    · rintro ⟨row, hrow, cell, hcell, hbl, hpf⟩
      refine ⟨row, hrow, ?_⟩
      rw [Bool.not_eq_true] at hbl hpf
      rw [hcell]
      simp [hbl, hpf]
  · intro c hc
    rw [columnTypesSpec_getElem?, if_pos hc]

/-- Witness for C5 at a concrete two-column table. -/
theorem C5_witness :
    (∀ row ∈ [["1", "a"], ["", "b"]], row.length ≤ 2) ∧
    findColumnTypes (fun s => s == "1") 2 [["1", "a"], ["", "b"]] =
      .ok (columnTypesSpec (fun s => s == "1") 2 [["1", "a"], ["", "b"]]) :=
  ⟨by decide,
    (C5_column_type_inference (fun s => s == "1") 2 [["1", "a"], ["", "b"]]
      (by decide)).1⟩

/-- First-seen deduplication: the key order of a dict built by
insertion. -/
def firstSeen (l : List String) : List String :=
  l.foldl (fun ks x => if x ∈ ks then ks else ks ++ [x]) []

/-- Lookup in a grouped association list, empty for an absent key. -/
def findGroup : List (String × List Row) → String → List Row
  | [], _ => []
  | (k, rs) :: rest, key => if k = key then rs else findGroup rest key

/-- The claim's grouped table: first-seen keys, each holding the rows
whose cell at the grouped column equals the key, that cell removed, in
original order. -/
def specGroups (c : Nat) (rows : List Row) : List (String × List Row) :=
  (firstSeen (rows.map fun row => row.getD c "")).map fun k =>
    (k, (rows.filter fun row => row.getD c "" = k).map
      fun row => row.eraseIdx c)

theorem addToGroup_keys (g : List (String × List Row)) (name : String)
    (row : Row) :
    (addToGroup g name row).map Prod.fst =
      if name ∈ g.map Prod.fst then g.map Prod.fst
      else g.map Prod.fst ++ [name] := by
  induction g with
  | nil => simp [addToGroup]
  | cons p rest ih =>
    obtain ⟨k, rs⟩ := p
    by_cases hk : k = name
    · subst hk
      simp [addToGroup]
    · simp only [addToGroup, if_neg hk, List.map_cons, ih]
      by_cases hm : name ∈ rest.map Prod.fst
      · simp [hm, List.mem_cons, Ne.symm hk]
      · simp [hm, List.mem_cons, Ne.symm hk]

theorem findGroup_addToGroup (g : List (String × List Row))
    (name key : String) (row : Row) :
    findGroup (addToGroup g name row) key =
      if key = name then findGroup g name ++ [row] else findGroup g key := by
  induction g with
  | nil =>
    by_cases hk : key = name
    · subst hk
      simp [addToGroup, findGroup]
    · simp [addToGroup, findGroup, hk, Ne.symm hk]
  | cons p rest ih =>
    obtain ⟨k, rs⟩ := p
    by_cases hk : k = name
    · subst hk
      simp only [addToGroup, if_pos rfl, findGroup]
      by_cases hkey : k = key
      · subst hkey
        simp [findGroup]
      · simp [findGroup, hkey, Ne.symm hkey]
    · simp only [addToGroup, if_neg hk, findGroup]
      by_cases hkey : k = key
      · subst hkey
        simp [findGroup, hk]
      · simp [findGroup, hk, hkey, ih]

/-- The row loop of `group_by` succeeds on in-range rows and produces the
accumulated first-seen grouping. -/
theorem groupRows_spec (c : Nat) :
    ∀ (rows : List Row) (acc : List (String × List Row)),
    (∀ row ∈ rows, c < row.length) →
    ∃ G, groupRows c rows acc = .ok G ∧
      G.map Prod.fst = rows.foldl
        (fun ks row =>
          if row.getD c "" ∈ ks then ks else ks ++ [row.getD c ""])
        (acc.map Prod.fst) ∧
      ∀ k, findGroup G k = findGroup acc k ++
        ((rows.filter fun row => row.getD c "" = k).map
          fun row => row.eraseIdx c) := by
  intro rows
  induction rows with
  | nil =>
    intro acc _
    exact ⟨acc, rfl, rfl, fun k => by simp⟩
  | cons row rest ih =>
    intro acc hlen
    have hc : c < row.length := hlen row (List.mem_cons_self _ _)
    have hget : row[c]? = some (row.getD c "") := by
      rw [List.getD_eq_getElem?_getD, List.getElem?_eq_getElem hc]
      rfl
    obtain ⟨G, hG, hkeys, hfind⟩ :=
      ih (addToGroup acc (row.getD c "") (row.eraseIdx c))
        fun r hr => hlen r (List.mem_cons_of_mem _ hr)
    refine ⟨G, ?_, ?_, ?_⟩
    · rw [groupRows, hget]
      exact hG
    · rw [hkeys, List.foldl_cons, addToGroup_keys]
    · intro k
      rw [hfind k, findGroup_addToGroup]
      by_cases hk : k = row.getD c ""
      · subst hk
        rw [if_pos rfl, List.filter_cons, if_pos (by simp)]
        simp
      · rw [if_neg hk, List.filter_cons,
          if_neg (by simpa using Ne.symm hk)]

theorem foldl_insert_nodup :
    ∀ (l : List String) (acc : List String), acc.Nodup →
    (l.foldl (fun ks x => if x ∈ ks then ks else ks ++ [x]) acc).Nodup := by
  intro l
  induction l with
  | nil => exact fun acc h => h
  | cons x rest ih =>
    intro acc h
    simp only [List.foldl_cons]
    by_cases hx : x ∈ acc
    · rw [if_pos hx]
      exact ih acc h
    · rw [if_neg hx]
      refine ih _ (List.nodup_append.mpr ⟨h, List.nodup_singleton x, ?_⟩)
      intro a ha hax
      rw [List.mem_singleton] at hax
      exact hx (hax ▸ ha)

theorem firstSeen_nodup (l : List String) : (firstSeen l).Nodup :=
  foldl_insert_nodup l [] List.nodup_nil

/-- An association list with distinct keys is determined by its key order
and its lookup function. -/
theorem eq_keys_map_findGroup :
    ∀ (G : List (String × List Row)), (G.map Prod.fst).Nodup →
    G = (G.map Prod.fst).map fun k => (k, findGroup G k) := by
  intro G
  induction G with
  | nil => exact fun _ => rfl
  | cons p rest ih =>
    obtain ⟨k, rs⟩ := p
    intro h
    simp only [List.map_cons, List.nodup_cons] at h
    have htail : (rest.map Prod.fst).map
        (fun key => (key, findGroup ((k, rs) :: rest) key)) =
        (rest.map Prod.fst).map (fun key => (key, findGroup rest key)) := by
      apply List.map_congr_left
      intro key hkey
      have hkk : ¬k = key := fun hkk => h.1 (hkk ▸ hkey)
      simp [findGroup, hkk]
    simp only [List.map_cons]
    rw [show findGroup ((k, rs) :: rest) k = rs from by simp [findGroup],
      htail, ← ih h.2]

/-- C3: on every imported (flat) dataset and in-range column, `group_by`
shortens headings, column types and maximum lengths by exactly one
element each (keeping them equal in length), and re-shapes the rows into
the first-seen-ordered grouping in which every original row appears
exactly once, under the key equal to its cell at the grouped column and
with that cell removed, rows inside a group keeping their original
order. -/
theorem C3_group_by (t : TabularData) (rows : List Row) (c : Nat)
    (hdata : t.data = Rows.flat rows)
    (hh : t.headings.length = t.width)
    (hct : t.column_types.length = t.width)
    (hml : t.maximum_lengths.length = t.width)
    (hc : c < t.width)
    (hrows : ∀ row ∈ rows, row.length = t.width) :
    t.group_by c = .ok ⟨t.headings.eraseIdx c,
      Rows.grouped (specGroups c rows), t.width,
      t.column_types.eraseIdx c, t.maximum_lengths.eraseIdx c⟩ ∧
    (t.headings.eraseIdx c).length = t.width - 1 ∧
    (t.column_types.eraseIdx c).length = t.width - 1 ∧
    (t.maximum_lengths.eraseIdx c).length = t.width - 1 ∧
    ((specGroups c rows).map Prod.fst).Nodup ∧
    (specGroups c rows).map Prod.fst =
      firstSeen (rows.map fun row => row.getD c "") ∧
    (∀ k, findGroup (specGroups c rows) k =
      (rows.filter fun row => row.getD c "" = k).map
        fun row => row.eraseIdx c) := by
  obtain ⟨G, hG, hkeys, hfind⟩ := groupRows_spec c rows []
    fun row hr => by rw [hrows row hr]; exact hc
  have hkeysG : G.map Prod.fst =
      firstSeen (rows.map fun row => row.getD c "") := by
    rw [hkeys, firstSeen, List.foldl_map]
    rfl
  have hfindG : ∀ k, findGroup G k =
      (rows.filter fun row => row.getD c "" = k).map
        fun row => row.eraseIdx c := by
    intro k
    rw [hfind k]
    rfl
  have hnodup : (G.map Prod.fst).Nodup := by
    rw [hkeysG]
    exact firstSeen_nodup _
  have hGspec : G = specGroups c rows := by
    rw [eq_keys_map_findGroup G hnodup, hkeysG, specGroups]
    apply List.map_congr_left
    intro key _
    rw [hfindG key]
  have hG2 : groupRows c rows [] = .ok (specGroups c rows) := hGspec ▸ hG
  have hd1 : pyDelete t.headings c = .ok (t.headings.eraseIdx c) := by
    rw [pyDelete, if_pos (by omega)]
  have hd2 : pyDelete t.maximum_lengths c =
      .ok (t.maximum_lengths.eraseIdx c) := by
    rw [pyDelete, if_pos (by omega)]
  have hd3 : pyDelete t.column_types c =
      .ok (t.column_types.eraseIdx c) := by
    rw [pyDelete, if_pos (by omega)]
  have hrun : t.group_by c = .ok ⟨t.headings.eraseIdx c,
      Rows.grouped (specGroups c rows), t.width,
      t.column_types.eraseIdx c, t.maximum_lengths.eraseIdx c⟩ := by
    simp only [TabularData.group_by, hdata, hG2, hd1, hd2, hd3]
    rfl
  refine ⟨hrun, ?_, ?_, ?_, hGspec ▸ hnodup, hGspec ▸ hkeysG,
    fun k => hGspec ▸ hfindG k⟩
  · rw [List.length_eraseIdx, if_pos (by omega), hh]
  · rw [List.length_eraseIdx, if_pos (by omega), hct]
  · rw [List.length_eraseIdx, if_pos (by omega), hml]

/-- Witness for C3 at a concrete three-row table grouped on its first
column. -/
theorem C3_witness :
    ((0 : Nat) < 2 ∧
      ∀ row ∈ [["a", "1"], ["b", "2"], ["a", "3"]],
        List.length row = 2) ∧
    (TabularData.mk ["g", "v"]
        (Rows.flat [["a", "1"], ["b", "2"], ["a", "3"]]) 2 [1, 0]
        [1, 1]).group_by 0 =
      .ok ⟨["g", "v"].eraseIdx 0,
        Rows.grouped (specGroups 0 [["a", "1"], ["b", "2"], ["a", "3"]]),
        2, [1, 0].eraseIdx 0, [1, 1].eraseIdx 0⟩ :=
  ⟨⟨by decide, by decide⟩,
    (C3_group_by (TabularData.mk ["g", "v"]
        (Rows.flat [["a", "1"], ["b", "2"], ["a", "3"]]) 2 [1, 0] [1, 1])
      [["a", "1"], ["b", "2"], ["a", "3"]] 0 rfl rfl rfl rfl (by decide)
      (by decide)).1⟩

theorem maxCells_ok (row : List String) :
    ∀ (maximum : List Nat) (column : Nat),
    column + row.length ≤ maximum.length →
    ∃ m2, maxCells maximum column row = .ok m2 ∧
      m2.length = maximum.length := by
  induction row with
  | nil => exact fun maximum column _ => ⟨maximum, rfl, rfl⟩
  | cons value rest ih =>
    intro maximum column hlen
    simp only [List.length_cons] at hlen
    have hcol : column < maximum.length := by omega
    have hm : maximum[column]? = some maximum[column] :=
      List.getElem?_eq_getElem hcol
    set m1 := if value.length > maximum[column] then
      maximum.set column value.length else maximum with hm1
    have hl1 : m1.length = maximum.length := by
      rw [hm1]
      split <;> simp [List.length_set]
    obtain ⟨m2, heq, hl2⟩ := ih m1 (column + 1) (by omega)
    refine ⟨m2, ?_, by rw [hl2, hl1]⟩
    rw [maxCells, hm]
    exact heq

theorem maxCells_err (row : List String) :
    ∀ (maximum : List Nat) (column : Nat),
    column ≤ maximum.length → maximum.length < column + row.length →
    maxCells maximum column row = .error .indexError := by
  induction row with
  | nil =>
    intro maximum column h1 h2
    simp only [List.length_nil] at h2
    omega
  | cons value rest ih =>
    intro maximum column h1 h2
    simp only [List.length_cons] at h2
    by_cases hcol : column < maximum.length
    · have hm : maximum[column]? = some maximum[column] :=
        List.getElem?_eq_getElem hcol
      rw [maxCells, hm]
      apply ih
      · split
        · rw [List.length_set]
          omega
        · omega
      · split
        · rw [List.length_set]
          omega
        · omega
    · have hm : maximum[column]? = none :=
        List.getElem?_eq_none (by omega)
      rw [maxCells, hm]

theorem findMaximumLengthAux_ok :
    ∀ (rows : List Row) (maximum : List Nat),
    (∀ row ∈ rows, row.length ≤ maximum.length) →
    ∃ m2, findMaximumLengthAux maximum rows = .ok m2 ∧
      m2.length = maximum.length := by
  intro rows
  induction rows with
  | nil => exact fun maximum _ => ⟨maximum, rfl, rfl⟩
  | cons row rest ih =>
    intro maximum hlen
    obtain ⟨m1, heq1, hl1⟩ := maxCells_ok row maximum 0
      (by simpa using hlen row (List.mem_cons_self _ _))
    obtain ⟨m2, heq2, hl2⟩ := ih m1 fun r hr => by
      rw [hl1]
      exact hlen r (List.mem_cons_of_mem _ hr)
    refine ⟨m2, ?_, by rw [hl2, hl1]⟩
    rw [findMaximumLengthAux, heq1]
    exact heq2

theorem findMaximumLengthAux_err :
    ∀ (rows : List Row) (maximum : List Nat),
    (∃ row ∈ rows, maximum.length < row.length) →
    findMaximumLengthAux maximum rows = .error .indexError := by
  intro rows
  induction rows with
  | nil =>
    rintro maximum ⟨row, hrow, _⟩
    cases hrow
  | cons row rest ih =>
    rintro maximum ⟨r, hr, hlen⟩
    by_cases hrow : maximum.length < row.length
    · rw [findMaximumLengthAux,
        maxCells_err row maximum 0 (by omega) (by omega)]
      rfl
    · obtain ⟨m1, heq1, hl1⟩ := maxCells_ok row maximum 0 (by omega)
      rw [findMaximumLengthAux, heq1]
      show findMaximumLengthAux m1 rest = _
      apply ih
      rcases List.mem_cons.mp hr with hre | hre
      · subst hre
        omega
      · exact ⟨r, hre, by rw [hl1]; exact hlen⟩

theorem typeCells_error_kind (parsesFloat : String → Bool) :
    ∀ (row : List String) (types : List Nat) (column : Nat) (e : ExcKind),
    typeCells parsesFloat types column row = .error e → e = .indexError := by
  intro row
  induction row with
  | nil =>
    intro types column e h
    cases h
  | cons value rest ih =>
    intro types column e h
    rw [typeCells] at h
    cases hm : types[column]? with
    | none =>
      rw [hm] at h
      cases h
      rfl
    | some t =>
      rw [hm] at h
      exact ih _ _ _ h

theorem findColumnTypesAux_error_kind (parsesFloat : String → Bool)
    (width : Nat) :
    ∀ (rows : List Row) (types : List Nat) (e : ExcKind),
    findColumnTypesAux parsesFloat width types rows = .error e →
    e = .indexError := by
  intro rows
  induction rows with
  | nil =>
    intro types e h
    cases h
  | cons row rest ih =>
    intro types e h
    rw [findColumnTypesAux] at h
    by_cases hb : types = List.replicate width STRING
    · rw [if_pos hb] at h
      cases h
    · rw [if_neg hb] at h
      cases hty : typeCells parsesFloat types 0 row with
      | error e2 =>
        rw [hty] at h
        cases h
        exact typeCells_error_kind parsesFloat row types 0 _ hty
      | ok types2 =>
        rw [hty] at h
        exact ih types2 e h

/-- C10: `import_data` completes without exception exactly when every
data row has at most as many cells as the heading row; a data row wider
than the header makes the type and maximum-length inference index past
their per-column arrays, raising `IndexError`. -/
theorem C10_ragged_rows (parsesFloat : String → Bool)
    (headings row0 : Row) (rest : List Row) :
    ((∃ r ∈ row0 :: rest, headings.length < r.length) →
      importData parsesFloat (headings :: row0 :: rest) =
        .error .indexError) ∧
    ((∀ r ∈ row0 :: rest, r.length ≤ headings.length) →
      ∃ td, importData parsesFloat (headings :: row0 :: rest) =
        .ok td) := by
  constructor
  · intro hw
    have hmax : findMaximumLength headings (row0 :: rest) =
        .error .indexError := by
      apply findMaximumLengthAux_err
      obtain ⟨r, hr, hlen⟩ := hw
      exact ⟨r, hr, by simpa using hlen⟩
    cases hty : findColumnTypes parsesFloat headings.length
        (row0 :: rest) with
    | error e =>
      have he : e = .indexError :=
        findColumnTypesAux_error_kind parsesFloat headings.length
          (row0 :: rest) _ e hty
      subst he
      simp only [importData, hty]
      rfl
    | ok types =>
      simp only [importData, hty, hmax]
      rfl
  · intro hok
    have hty : findColumnTypes parsesFloat headings.length (row0 :: rest) =
        .ok (columnTypesSpec parsesFloat headings.length (row0 :: rest)) := by
      rw [findColumnTypes, replicate_number_eq_spec_nil]
      have h2 := findColumnTypesAux_spec parsesFloat headings.length
        (row0 :: rest) [] hok
      simpa using h2
    obtain ⟨m2, hmax, _⟩ := findMaximumLengthAux_ok (row0 :: rest)
      (headings.map String.length) (by simpa using hok)
    refine ⟨⟨headings, Rows.flat (row0 :: rest), headings.length,
      columnTypesSpec parsesFloat headings.length (row0 :: rest), m2⟩, ?_⟩
    have hmax2 : findMaximumLength headings (row0 :: rest) = .ok m2 := hmax
    simp only [importData, hty, hmax2]
    rfl

/-- Witness for C10 at a one-column header with a two-cell data row. -/
theorem C10_witness :
    (∃ r ∈ [["x", "y"]], List.length ["a"] < r.length) ∧
    importData (fun _ => false) [["a"], ["x", "y"]] =
      .error .indexError :=
  ⟨⟨["x", "y"], by decide, by decide⟩,
    (C10_ragged_rows (fun _ => false) ["a"] ["x", "y"] []).1
      ⟨["x", "y"], by decide, by decide⟩⟩

end Cliquetis
